/-
Verification of the "do-you-know-my-bubble" network-graph core.

Shallow embedding of:
  - src/app/network/page.tsx        (interaction callbacks, structural key, persistence effects)
  - src/hooks/use-network-graph.ts  (structural key, tick handler: hull paths + settle flush)
  - the storage helpers (loadBubbleFromStorage / saveBubbleToStorage) and the
    shared data types (NodeData, LinkData, BubbleGroup, SavedBubble).

Numbers: radii and coordinates are modelled as exact rationals (ℚ) in the durable
model, and as exact reals (ℝ) for the live simulation-node geometry.  External
library functions used by the code (d3.polygonHull, Math.hypot) are passed in as
parameters and constrained by their documented contracts where a claim needs them.
-/
import Mathlib

namespace Bubble

/-! ### JS string and number primitives

The source manipulates ids such as "conn-0" with `String.prototype.startsWith`,
`String.prototype.replace`, `parseInt(·, 10)` and number-to-string coercion
(template literals).  We model those operations here over `String` /
`List Char`. -/

/-- Numeric value of a decimal digit character (`c.toNat - 48`). -/
def digitVal (c : Char) : Nat := c.toNat - 48

/-- Decode a big-endian list of decimal digit characters to a natural number
(the accumulation `parseInt` performs on the digit prefix). -/
def decodeDigits (cs : List Char) : Nat :=
  cs.foldl (fun a c => 10 * a + digitVal c) 0

/-- Big-endian decimal digit characters of `n`; `fuel` bounds the recursion
(structural, so that the kernel can evaluate it; callers pass `fuel = n`). -/
def natDecCharsAux : Nat → Nat → List Char
  | 0, n => [Nat.digitChar n]
  | fuel + 1, n =>
    if n < 10 then [Nat.digitChar n]
    else natDecCharsAux fuel (n / 10) ++ [Nat.digitChar (n % 10)]

/-- Big-endian decimal digit characters of `n` (e.g. `12 ↦ ['1','2']`). -/
def natDecChars (n : Nat) : List Char := natDecCharsAux n n

/-- Canonical decimal string of a natural number: the model of JS
number-to-string coercion for the non-negative integers produced by the
id counters and `Array.length`. -/
def natDecimal (n : Nat) : String := String.mk (natDecChars n)

/-- Model of `s.startsWith(pre)`. -/
def jsStartsWith (s pre : String) : Bool := pre.data.isPrefixOf s.data

/-- Model of dropping the first `k` characters of `s`.  The source uses
`id.replace("conn-", "")` only under an `id.startsWith("conn-")` guard, where
JS `replace` (first occurrence only) removes exactly the 5-character prefix. -/
def jsDrop (s : String) (k : Nat) : String := String.mk (s.data.drop k)

/-- Longest decimal-digit prefix of `cs`, decoded; `none` when `cs` does not
begin with a digit (in which case `parseInt` yields `NaN`). -/
def parseDigitsPrefix (cs : List Char) : Option Nat :=
  let ds := cs.takeWhile Char.isDigit
  if ds.isEmpty then none else some (decodeDigits ds)

/-- Model of JS `String.prototype.trim()`: drop whitespace from both ends. -/
def jsTrim (s : String) : String :=
  String.mk
    (((s.data.dropWhile Char.isWhitespace).reverse.dropWhile
      Char.isWhitespace).reverse)

/-- `jsParseInt` on the character list: skip leading whitespace, optional
sign, then the longest digit prefix; `none` models `NaN`. -/
def jsParseIntChars (cs : List Char) : Option Int :=
  match cs.dropWhile Char.isWhitespace with
  | [] => none
  | c :: rest =>
    if c = '-' then (parseDigitsPrefix rest).map (fun n => -(n : Int))
    else if c = '+' then (parseDigitsPrefix rest).map (fun n => (n : Int))
    else (parseDigitsPrefix (c :: rest)).map (fun n => (n : Int))

/-- Model of JS `parseInt(s, 10)`. -/
def jsParseInt (s : String) : Option Int := jsParseIntChars s.data

/-! ### Data model (src types: NodeData, LinkData, BubbleGroup, SavedBubble) -/

/-- `type` field of a live node: `"user" | "connection"`. -/
inductive NType where
  | user
  | connection
deriving DecidableEq, Repr

/-- `NodeData`: durable node record.  `x`/`y` are `undefined` (`none`) until a
settled layout or a drag release writes them. -/
structure NodeData where
  id : String
  name : String
  type : NType
  radius : ℚ
  x : Option ℚ := none
  y : Option ℚ := none
deriving DecidableEq, Repr

/-- `LinkData`: an (oriented, as stored) link between two node ids. -/
structure LinkData where
  source : String
  target : String
deriving DecidableEq, Repr

/-- `BubbleGroup`: a named group with member node ids. -/
structure BubbleGroup where
  id : String
  name : String
  memberNodeIds : List String
deriving DecidableEq, Repr

/-- `createNode` (page.tsx / network-utils): radius 35 for the user node,
22 for connections. -/
def createNode (id name : String) (type : NType) : NodeData :=
  { id := id, name := name, type := type
    radius := if type = NType.user then 35 else 22 }

/-- Node `type` as found in a stored record: may be the obsolete `"group"`. -/
inductive SType where
  | user
  | connection
  | group
deriving DecidableEq, Repr

/-- A node as found in a stored record (`NodeData` or legacy group-typed). -/
structure SavedNode where
  id : String
  name : String
  type : SType
  radius : ℚ
  x : Option ℚ := none
  y : Option ℚ := none
deriving DecidableEq, Repr

/-- A parsed stored record.  Fields are `Option`s because JSON values may lack
them (`name` absent/empty ≙ falsy; `nodes`/`links`/`groups` may fail
`Array.isArray`). -/
structure SavedBubble where
  name : Option String
  nodes : Option (List SavedNode)
  links : Option (List LinkData)
  groups : Option (List BubbleGroup)
deriving DecidableEq, Repr

/-- The state of the storage slot under the app's key: absent, unparsable
JSON, or a parsed record. -/
inductive Store where
  | empty
  | malformed
  | value (saved : SavedBubble)
deriving DecidableEq, Repr

/-- The result record of `loadBubbleFromStorage`. -/
structure LoadedBubble where
  name : String
  nodes : List NodeData
  links : List LinkData
  groups : List BubbleGroup
  nextConnId : Int
  nextGroupId : Int
deriving DecidableEq, Repr

/-- Conversion of a stored node back to a live node; `none` for the obsolete
`"group"` kind (the source expresses this as `filter` plus a type cast). -/
def SavedNode.toNodeData? (n : SavedNode) : Option NodeData :=
  match n.type with
  | SType.user => some ⟨n.id, n.name, NType.user, n.radius, n.x, n.y⟩
  | SType.connection => some ⟨n.id, n.name, NType.connection, n.radius, n.x, n.y⟩
  | SType.group => none

/-- A live node as it is written into a stored record. -/
def NodeData.toSavedNode (n : NodeData) : SavedNode :=
  match n.type with
  | NType.user => ⟨n.id, n.name, SType.user, n.radius, n.x, n.y⟩
  | NType.connection => ⟨n.id, n.name, SType.connection, n.radius, n.x, n.y⟩

/-- JS truthiness of the optional `name` field: falsy when absent or `""`. -/
def nameFalsy : Option String → Bool
  | none => true
  | some s => s = ""

/-! ### Interaction-controller callbacks (page.tsx) -/

/-- `exists` check inside `addLinkBetweenNodes`: a link between `a` and `b`
in either orientation. -/
def linkExistsEither (links : List LinkData) (a b : String) : Bool :=
  links.any fun l =>
    (l.source == a && l.target == b) || (l.source == b && l.target == a)

/-- `addLinkBetweenNodes` (page.tsx:198–213 / 1018–1033), restricted to its
effect on the link list (the `setLinks` functional update; the accompanying
`setLinkFromNodeId(null)` mode reset touches no link). -/
def addLinkBetweenNodes (sourceId targetId : String) (links : List LinkData) :
    List LinkData :=
  if sourceId = targetId then links
  else if linkExistsEither links sourceId targetId then links
  else links ++ [⟨sourceId, targetId⟩]

/-- Spec-side view of "a link between `a` and `b` exists in either
orientation" as a proposition about list membership. -/
def HasLink (links : List LinkData) (a b : String) : Prop :=
  (⟨a, b⟩ : LinkData) ∈ links ∨ (⟨b, a⟩ : LinkData) ∈ links

/-- `addNodeToGroup` (page.tsx:228–236 / 1035–1043): append `nodeId` to the
membership of the group with id `groupId` unless already present. -/
def addNodeToGroup (groupId nodeId : String) (groups : List BubbleGroup) :
    List BubbleGroup :=
  groups.map fun g =>
    if g.id = groupId ∧ ¬ g.memberNodeIds.contains nodeId then
      { g with memberNodeIds := g.memberNodeIds ++ [nodeId] }
    else g

/-! ### Structural identity key (page.tsx:256–269, use-network-graph.ts:57–70) -/

/-- Lexicographic comparison of character lists (the order JS
`Array.prototype.sort()` uses on strings). -/
def charListLe : List Char → List Char → Bool
  | [], _ => true
  | _ :: _, [] => false
  | a :: as, b :: bs =>
    if a < b then true else if b < a then false else charListLe as bs

/-- Lexicographic `≤` on strings as an executable Boolean. -/
def strLeB (a b : String) : Bool := charListLe a.data b.data

/-- JS `Array.prototype.sort()` on strings: the unique sorted arrangement
under the lexicographic linear order. -/
def sortStrings (l : List String) : List String :=
  l.insertionSort fun a b => strLeB a b = true

/-- `join(",")`. -/
def joinComma (l : List String) : String := String.intercalate "," l

/-- `nodes.length + "-" + [...nodes.map(n => n.id)].sort().join(",")`. -/
def nodeIdsKey (nodes : List NodeData) : String :=
  natDecimal nodes.length ++ "-" ++ joinComma (sortStrings (nodes.map (·.id)))

/-- The string a link contributes to the key: `` `${l.source}-${l.target}` ``. -/
def linkPairString (l : LinkData) : String := l.source ++ "-" ++ l.target

/-- `links.length + "-" + [...links.map(l => `${l.source}-${l.target}`)].sort().join(",")`. -/
def linksKey (links : List LinkData) : String :=
  natDecimal links.length ++ "-" ++ joinComma (sortStrings (links.map linkPairString))

/-- `groups.length + "-" + [...groups.map(g => g.id)].sort().join(",")`. -/
def groupsKey (groups : List BubbleGroup) : String :=
  natDecimal groups.length ++ "-" ++ joinComma (sortStrings (groups.map (·.id)))

/-- The memoised composite `graphStructure` value the graph effect depends on. -/
structure GraphStructure where
  nodeIdsKey : String
  linksKey : String
  groupsKey : String
deriving DecidableEq, Repr

/-- `graphStructure` as a function of the model state. -/
def graphStructure (nodes : List NodeData) (links : List LinkData)
    (groups : List BubbleGroup) : GraphStructure :=
  ⟨nodeIdsKey nodes, linksKey links, groupsKey groups⟩

/-! ### Storage (loadBubbleFromStorage / saveBubbleToStorage) -/

/-- The common shape of both counter-reseed reduction steps over an id:
for an id with the given prefix (whose byte length is `k`),
`Math.max(max, isNaN(num) ? 0 : num)` over `parseInt(id.replace(pre, ""), 10)`
(`replace` under the `startsWith` guard removes the `k`-character prefix). -/
def idStep (pre : String) (k : Nat) (acc : Int) (id : String) : Int :=
  if jsStartsWith id pre then
    match jsParseInt (jsDrop id k) with
    | some v => max acc v
    | none => max acc 0
  else acc

/-- One step of `saved.nodes.reduce(...)` reseeding the connection counter. -/
def connStep (acc : Int) (n : SavedNode) : Int :=
  if jsStartsWith n.id "conn-" then
    match jsParseInt (jsDrop n.id 5) with
    | some v => max acc v
    | none => max acc 0
  else acc

/-- `saved.nodes.reduce(..., -1) + 1`: the reseeded `nextConnId`. -/
def nextConnIdOfList (ns : List SavedNode) : Int := ns.foldl connStep (-1) + 1

/-- One step of `(saved.groups ?? []).reduce(...)` for ids with prefix
`"group-"`. -/
def groupStep (acc : Int) (g : BubbleGroup) : Int :=
  if jsStartsWith g.id "group-" then
    match jsParseInt (jsDrop g.id 6) with
    | some v => max acc v
    | none => max acc 0
  else acc

/-- `(saved.groups ?? []).reduce(..., -1) + 1`: the reseeded `nextGroupId`. -/
def nextGroupIdOfList (gs : List BubbleGroup) : Int := gs.foldl groupStep (-1) + 1

/-- The ids of the obsolete group-typed nodes in a stored node list
(the `groupNodeIds` set in the source). -/
def groupNodeIdsOf (ns : List SavedNode) : List String :=
  (ns.filter fun n => n.type == SType.group).map (·.id)

/-- `loadBubbleFromStorage` (network-utils): validate the stored record,
migrate away obsolete group-typed nodes and their incident links, default
`groups` to `[]`, and reseed both id counters.  `none` models returning
`null` (absent key, unparsable JSON, or failed validation — including the
`catch` branch, which also yields `null`). -/
def loadBubbleFromStorage (store : Store) : Option LoadedBubble :=
  match store with
  | Store.empty => none
  | Store.malformed => none
  | Store.value saved =>
    match saved.nodes, saved.links with
    | some ns, some ls =>
      if nameFalsy saved.name ∨ ns.length = 0 then none
      else
        let groupNodeIds := groupNodeIdsOf ns
        some
          { name := saved.name.getD ""
            nodes := ns.filterMap SavedNode.toNodeData?
            links := ls.filter fun l =>
              !groupNodeIds.contains l.source && !groupNodeIds.contains l.target
            groups := saved.groups.getD []
            nextConnId := nextConnIdOfList ns
            nextGroupId := nextGroupIdOfList (saved.groups.getD []) }
    | _, _ => none

/-- `saveBubbleToStorage` (network-utils): write the record (trimmed name;
`groups` field omitted when empty).  The result is the storage state the
write leaves behind; storage-quota failures are outside the model (the
caller ignores them and the claims do not mention them). -/
def saveBubbleToStorage (name : String) (nodes : List NodeData)
    (links : List LinkData) (groups : List BubbleGroup) : Store :=
  Store.value
    { name := some (jsTrim name)
      nodes := some (nodes.map NodeData.toSavedNode)
      links := some links
      groups := if groups.length > 0 then some groups else none }

/-! ### Settle flush (use-network-graph.ts:288–301, page.tsx:502–515)

A simulation run starts with `hasFlushedPositionsRef.current = false`
(set by the graph effect right before the simulation is created).  On each
tick the handler reads the current alpha; when `alpha < 0.1` and the flag is
still unset it sets the flag and performs the one `setNodes` position flush.
We model a run as the sequence of alpha values observed by the tick handler
and count the flush executions. -/

/-- Number of `setNodes` position flushes executed over the remaining ticks,
given the current `hasFlushedPositionsRef` value. -/
def flushCountAux : Bool → List ℚ → Nat
  | _, [] => 0
  | flushed, alpha :: rest =>
    if alpha < 1 / 10 then
      if flushed then flushCountAux flushed rest
      else 1 + flushCountAux true rest
    else flushCountAux flushed rest

/-- Number of position flushes over a whole run (flag reset to `false` at
simulation start, use-network-graph.ts:110). -/
def flushCount (alphas : List ℚ) : Nat := flushCountAux false alphas

/-! ### Per-tick group hull paths (use-network-graph.ts:253–278)

Live simulation nodes carry real-valued positions.  The external library
functions the tick handler calls — `d3.polygonHull` and `Math.hypot` — are
taken as parameters; the claims constrain them by their documented contracts. -/

/-- A live simulation node (`Node`), as read by the tick handler.  The
coordinate field `K` is instantiated with `ℝ` in the theorems; it is kept as
a parameter so the definitions stay executable. -/
structure SimNode (K : Type) where
  id : String
  name : String
  type : NType
  radius : K
  x : Option K := none
  y : Option K := none

/-- A 2D point. -/
abbrev Pt (K : Type) : Type := K × K

/-- The `points` array collected for one group on a tick: for each member id
in order, the position of the first matching live node, when it has both
coordinates. -/
def collectGroupPoints {K : Type} (group : BubbleGroup)
    (nodesData : List (SimNode K)) : List (Pt K) :=
  group.memberNodeIds.filterMap fun i =>
    match nodesData.find? (fun n => n.id == i) with
    | some n =>
      match n.x, n.y with
      | some px, some py => some (px, py)
      | _, _ => none
    | none => none

/-- The geometry encoded by the SVG path string `d` the tick handler builds
for one group: `hidden` for `d = ""` (the path is given `visibility:hidden`),
`arcs cx cy r` for the two-semicircular-arc path
`M(cx+r),cy A r r 0 0 1 (cx-r),cy A r r 0 0 1 (cx+r),cy Z`, and `poly h` for
the polygon path `M h₀ L h₁ L ... Z`. -/
inductive GroupPath (K : Type) where
  | hidden
  | arcs (cx cy r : K)
  | poly (hull : List (Pt K))

/-- Shape selection of the tick handler over the collected `points`:
`points.length >= 3` → polygon from `polygonHull` (or `d = ""` when it
returns `null`); `=== 2` → two arcs around the midpoint with radius
`hypot/2 + 45`; `=== 1` → two arcs of radius 50 around the point; otherwise
`d` stays `""`.  `polygonHull` stands for `d3.polygonHull` and `hypot` for
`Math.hypot` (external library calls, passed as parameters). -/
def groupPathOfPoints {K : Type} [Field K]
    (polygonHull : List (Pt K) → Option (List (Pt K)))
    (hypot : K → K → K) (points : List (Pt K)) : GroupPath K :=
  if 3 ≤ points.length then
    match polygonHull points with
    | some hull => GroupPath.poly hull
    | none => GroupPath.hidden
  else
    match points with
    | [p, q] =>
      let cx := (p.1 + q.1) / 2
      let cy := (p.2 + q.2) / 2
      let r := hypot (q.1 - p.1) (q.2 - p.2) / 2 + 45
      GroupPath.arcs cx cy r
    | [p] => GroupPath.arcs p.1 p.2 50
    | _ => GroupPath.hidden

/-- The per-tick hull computation for one group: collect live member
positions, then select the shape by cardinality. -/
def tickGroupPath {K : Type} [Field K]
    (polygonHull : List (Pt K) → Option (List (Pt K)))
    (hypot : K → K → K) (group : BubbleGroup) (nodesData : List (SimNode K)) :
    GroupPath K :=
  groupPathOfPoints polygonHull hypot (collectGroupPoints group nodesData)

/-- What the claims require of the polygon emitted for a ≥3-member group:
its vertices are drawn from the member positions (no padding or offset), and
every member position lies in the convex hull of those vertices.  Together
these make the polygon a representation of the convex hull of the member
positions (`convexHull ℝ {v | v ∈ hull} = convexHull ℝ {p | p ∈ pts}`). -/
def IsConvexHullPolyOf (hull pts : List (Pt ℝ)) : Prop :=
  (∀ v ∈ hull, v ∈ pts) ∧ ∀ p ∈ pts, p ∈ convexHull ℝ {v : Pt ℝ | v ∈ hull}

/-! ### Concrete inputs used by witnesses and counterexamples -/

/-- Two-node model state shared by the structural-key counterexample. -/
def cexNodes : List NodeData :=
  [createNode "user" "Ava" NType.user, createNode "conn-0" "Ben" NType.connection]

/-- A link stored as `user → conn-0`. -/
def cexLinksFwd : List LinkData := [⟨"user", "conn-0"⟩]

/-- The same unordered link stored in the opposite orientation. -/
def cexLinksRev : List LinkData := [⟨"conn-0", "user"⟩]

/-- Node list for the missing-endpoint counterexample: only the user node. -/
def cexOnlyUser : List NodeData := [createNode "user" "Ava" NType.user]

/-- The same two nodes as `cexNodes` in the opposite list order. -/
def wShuffledNodes : List NodeData :=
  [createNode "conn-0" "Ben" NType.connection, createNode "user" "Ava" NType.user]

/-- A position-only mutation: write coordinates, keep everything else. -/
def posUpdate (n : NodeData) : NodeData := { n with x := some 120, y := some 80 }

/-- A membership-and-name-only group mutation: keeps the group id. -/
def groupRename (g : BubbleGroup) : BubbleGroup :=
  { g with name := g.name ++ "!", memberNodeIds := g.memberNodeIds ++ ["user"] }

/-- Group list for the membership-idempotence witness. -/
def wGroups : List BubbleGroup :=
  [⟨"group-0", "Family", ["user"]⟩, ⟨"group-1", "Work", []⟩]

/-- Stored node list with an obsolete group-typed node, for the migration
witness. -/
def wLegacyNodes : List SavedNode :=
  [⟨"user", "Ava", SType.user, 35, none, none⟩,
   ⟨"conn-0", "Ben", SType.connection, 22, none, none⟩,
   ⟨"gnode", "Family", SType.group, 30, none, none⟩]

/-- Stored link list for the migration witness; two links touch the
group-typed node `"gnode"`. -/
def wLegacyLinks : List LinkData :=
  [⟨"user", "conn-0"⟩, ⟨"user", "gnode"⟩, ⟨"gnode", "conn-0"⟩]

/-- A stored record containing an obsolete group-typed node, for the
migration witness. -/
def wLegacyRecord : SavedBubble :=
  { name := some "Ava"
    nodes := some wLegacyNodes
    links := some wLegacyLinks
    groups := some [⟨"group-0", "Family", ["user", "conn-0"]⟩] }

/-- A parsed record with a good name and nodes but no `links` array: the
source's `!Array.isArray(saved.links)` check rejects it. -/
def cexNoLinksRecord : SavedBubble :=
  { name := some "Ava"
    nodes := some [⟨"user", "Ava", SType.user, 35, none, none⟩]
    links := none
    groups := none }

/-- Stored node list for the counter-reseed witness. -/
def wReseedNodes : List SavedNode :=
  [⟨"user", "Ava", SType.user, 35, none, none⟩,
   ⟨"conn-0", "Ben", SType.connection, 22, none, none⟩,
   ⟨"conn-7", "Cal", SType.connection, 22, none, none⟩]

/-- Stored link list for the counter-reseed witness. -/
def wReseedLinks : List LinkData := [⟨"user", "conn-0"⟩, ⟨"user", "conn-7"⟩]

/-- Stored group list for the counter-reseed witness. -/
def wReseedGroups : List BubbleGroup := [⟨"group-2", "Family", ["user"]⟩]

/-- A stored record for the counter-reseed witness. -/
def wReseedRecord : SavedBubble :=
  { name := some "Ava"
    nodes := some wReseedNodes
    links := some wReseedLinks
    groups := some wReseedGroups }

/-- Model state for the save/load round-trip witness. -/
def wRoundNodes : List NodeData :=
  [createNode "user" "Ava" NType.user, createNode "conn-0" "Ben" NType.connection]

/-- Links for the save/load round-trip witness. -/
def wRoundLinks : List LinkData := [⟨"user", "conn-0"⟩]

/-- Groups for the save/load round-trip witness. -/
def wRoundGroups : List BubbleGroup := [⟨"group-0", "Family", ["conn-0"]⟩]

/-- Live nodes for the hull witness: three positioned members. -/
def wSimNodes : List (SimNode ℝ) :=
  [⟨"user", "Ava", NType.user, 35, some 0, some 0⟩,
   ⟨"conn-0", "Ben", NType.connection, 22, some 1, some 0⟩,
   ⟨"conn-1", "Cal", NType.connection, 22, some 0, some 1⟩]

/-- Group for the hull witness: all three live nodes are members. -/
def wHullGroup : BubbleGroup := ⟨"group-0", "Family", ["user", "conn-0", "conn-1"]⟩

/-- A hull function usable in the hull witness: it returns the point list
itself, which satisfies the documented contract (vertices drawn from the
input, input contained in their convex hull). -/
def idHullFn : List (Pt ℝ) → Option (List (Pt ℝ)) := fun pts => some pts

/-! ## Shared lemmas -/

theorem linkExistsEither_iff (links : List LinkData) (a b : String) :
    linkExistsEither links a b = true ↔ HasLink links a b := by
  simp only [linkExistsEither, List.any_eq_true, Bool.or_eq_true, Bool.and_eq_true,
    beq_iff_eq, HasLink]
  constructor
  · rintro ⟨⟨s, t⟩, hmem, ⟨rfl, rfl⟩ | ⟨rfl, rfl⟩⟩
    · exact Or.inl hmem
    · exact Or.inr hmem
  · rintro (h | h)
    · exact ⟨⟨a, b⟩, h, Or.inl ⟨rfl, rfl⟩⟩
    · exact ⟨⟨b, a⟩, h, Or.inr ⟨rfl, rfl⟩⟩

theorem addLink_self (a : String) (links : List LinkData) :
    addLinkBetweenNodes a a links = links := by
  simp [addLinkBetweenNodes]

theorem addLink_dup {links : List LinkData} {a b : String} (h : HasLink links a b) :
    addLinkBetweenNodes a b links = links := by
  unfold addLinkBetweenNodes
  split
  · rfl
  · rw [if_pos ((linkExistsEither_iff links a b).2 h)]

theorem addLink_new {links : List LinkData} {a b : String} (hne : a ≠ b)
    (hnew : ¬ HasLink links a b) :
    addLinkBetweenNodes a b links = links ++ [⟨a, b⟩] := by
  have hex : linkExistsEither links a b = false :=
    Bool.eq_false_iff.mpr fun hT => hnew ((linkExistsEither_iff links a b).1 hT)
  simp [addLinkBetweenNodes, hne, hex]

theorem bool_eq_of_iff {a b : Bool} (h : a = true ↔ b = true) : a = b := by
  cases a <;> cases b <;> simp_all

theorem groupNodeIds_contains_iff (ns : List SavedNode) (s : String) :
    (groupNodeIdsOf ns).contains s = true ↔
      ∃ n ∈ ns, n.type = SType.group ∧ n.id = s := by
  show List.elem s (groupNodeIdsOf ns) = true ↔ _
  rw [List.elem_iff]
  simp only [groupNodeIdsOf, List.mem_map, List.mem_filter, beq_iff_eq]
  constructor
  · rintro ⟨n, ⟨hmem, hg⟩, hid⟩
    exact ⟨n, hmem, hg, hid⟩
  · rintro ⟨n, hmem, hg, hid⟩
    exact ⟨n, ⟨hmem, hg⟩, hid⟩

/-- The Boolean keep-condition of the link migration filter, spelled as the
spec's universally quantified avoidance condition. -/
theorem linkKeep_iff (ns : List SavedNode) (l : LinkData) :
    (!(groupNodeIdsOf ns).contains l.source &&
      !(groupNodeIdsOf ns).contains l.target) = true ↔
    ∀ n ∈ ns, n.type = SType.group → l.source ≠ n.id ∧ l.target ≠ n.id := by
  rw [Bool.and_eq_true, Bool.not_eq_true', Bool.not_eq_true']
  constructor
  · rintro ⟨hs, ht⟩ n hn hg
    refine ⟨fun heq => ?_, fun heq => ?_⟩
    · exact (Bool.eq_false_iff.mp hs)
        ((groupNodeIds_contains_iff ns l.source).2 ⟨n, hn, hg, heq.symm⟩)
    · exact (Bool.eq_false_iff.mp ht)
        ((groupNodeIds_contains_iff ns l.target).2 ⟨n, hn, hg, heq.symm⟩)
  · intro h
    constructor
    · refine Bool.eq_false_iff.mpr fun hT => ?_
      obtain ⟨n, hn, hg, hid⟩ := (groupNodeIds_contains_iff ns l.source).1 hT
      exact (h n hn hg).1 hid.symm
    · refine Bool.eq_false_iff.mpr fun hT => ?_
      obtain ⟨n, hn, hg, hid⟩ := (groupNodeIds_contains_iff ns l.target).1 hT
      exact (h n hn hg).2 hid.symm

/-- Migrated node list, pushed back through `toSavedNode`: exactly the
non-group-typed stored nodes. -/
theorem filterMap_toNodeData_map_toSavedNode (ns : List SavedNode) :
    (ns.filterMap SavedNode.toNodeData?).map NodeData.toSavedNode =
      ns.filter fun n => !(n.type == SType.group) := by
  induction ns with
  | nil => rfl
  | cons n rest ih =>
    cases n with
    | mk id name type radius x y =>
      cases type <;>
        simp [List.filterMap_cons, SavedNode.toNodeData?, List.filter_cons, ih,
          NodeData.toSavedNode]

theorem toNodeData_toSavedNode (n : NodeData) :
    n.toSavedNode.toNodeData? = some n := by
  cases n with
  | mk id name type radius x y => cases type <;> rfl

theorem filterMap_map_toSavedNode (nodes : List NodeData) :
    (nodes.map NodeData.toSavedNode).filterMap SavedNode.toNodeData? = nodes := by
  induction nodes with
  | nil => rfl
  | cons n rest ih =>
    simp [List.map_cons, List.filterMap_cons, toNodeData_toSavedNode, ih]

theorem toSavedNode_not_group (n : NodeData) :
    (n.toSavedNode.type == SType.group) = false := by
  cases n with
  | mk id name type radius x y => cases type <;> rfl

theorem groupNodeIdsOf_map_toSavedNode (nodes : List NodeData) :
    groupNodeIdsOf (nodes.map NodeData.toSavedNode) = [] := by
  induction nodes with
  | nil => rfl
  | cons n rest ih =>
    simp only [groupNodeIdsOf, List.map_cons, List.filter_cons,
      toSavedNode_not_group n, Bool.false_eq_true, if_false] at *
    exact ih

/-- Reduction of `loadBubbleFromStorage` on a record that passes validation. -/
theorem load_value_eq (saved : SavedBubble) (ns : List SavedNode)
    (ls : List LinkData) (hn : saved.nodes = some ns) (hl : saved.links = some ls)
    (hname : nameFalsy saved.name = false) (hne : ns ≠ []) :
    loadBubbleFromStorage (Store.value saved) = some
      { name := saved.name.getD ""
        nodes := ns.filterMap SavedNode.toNodeData?
        links := ls.filter fun l =>
          !(groupNodeIdsOf ns).contains l.source &&
            !(groupNodeIdsOf ns).contains l.target
        groups := saved.groups.getD []
        nextConnId := nextConnIdOfList ns
        nextGroupId := nextGroupIdOfList (saved.groups.getD []) } := by
  simp only [loadBubbleFromStorage, hn, hl]
  rw [if_neg]
  rintro (h | h)
  · rw [hname] at h
    exact Bool.false_ne_true h
  · exact hne (List.length_eq_zero.mp h)

/-! ## C3 — link dedup and self-link rejection -/

/-- C3: for every link list and pair of ids `(a, b)`, `addLinkBetweenNodes`
leaves the list unchanged when `a = b` or when a link between `a` and `b`
already exists in either orientation; otherwise it appends exactly the one
link `(a, b)`. -/
theorem addLink_dedup_selflink (a b : String) (links : List LinkData) :
    (a = b → addLinkBetweenNodes a b links = links) ∧
    (HasLink links a b → addLinkBetweenNodes a b links = links) ∧
    (a ≠ b → ¬ HasLink links a b →
      addLinkBetweenNodes a b links = links ++ [⟨a, b⟩]) :=
  ⟨fun h => h ▸ addLink_self a links, fun h => addLink_dup h,
   fun h1 h2 => addLink_new h1 h2⟩

/-- Witness for C3 at concrete inputs: appending a fresh link, and the no-op
on an existing link in the same orientation and in the reversed orientation. -/
theorem addLink_dedup_selflink_witness :
    (("user" : String) ≠ "conn-0" ∧ ¬ HasLink [] "user" "conn-0" ∧
      addLinkBetweenNodes "user" "conn-0" [] = [⟨"user", "conn-0"⟩]) ∧
    (HasLink cexLinksFwd "user" "conn-0" ∧
      addLinkBetweenNodes "user" "conn-0" cexLinksFwd = cexLinksFwd) ∧
    (HasLink cexLinksRev "user" "conn-0" ∧
      addLinkBetweenNodes "user" "conn-0" cexLinksRev = cexLinksRev) := by
  refine ⟨⟨by decide, ?_, ?_⟩, ⟨?_, ?_⟩, ⟨?_, ?_⟩⟩
  · rintro (h | h) <;> simp at h
  · exact (addLink_dedup_selflink "user" "conn-0" []).2.2 (by decide)
      (by rintro (h | h) <;> simp at h)
  · exact Or.inl (by simp [cexLinksFwd])
  · exact (addLink_dedup_selflink "user" "conn-0" cexLinksFwd).2.1
      (Or.inl (by simp [cexLinksFwd]))
  · exact Or.inr (by simp [cexLinksRev])
  · exact (addLink_dedup_selflink "user" "conn-0" cexLinksRev).2.1
      (Or.inr (by simp [cexLinksRev]))

/-! ## C4 — linking with a missing node id -/

/-- C4, counterexample: `addLinkBetweenNodes` never checks node existence.
With only the user node present, linking to the nonexistent id `"ghost"`
appends a link — the link list is changed, not left unchanged. -/
theorem addLink_missing_id_counterexample :
    (∀ n ∈ cexOnlyUser, n.id ≠ "ghost") ∧
    addLinkBetweenNodes "user" "ghost" [] = [⟨"user", "ghost"⟩] ∧
    addLinkBetweenNodes "user" "ghost" [] ≠ ([] : List LinkData) := by
  refine ⟨by decide, by decide, by decide⟩

/-- C4, amended: calling `addLinkBetweenNodes` with a target id that
references no existing node raises no error (the function is total), but it
is not a no-op: the self-link and duplicate checks are the only guards, so
when `a ≠ b` and no link exists in either orientation the link is appended
even though its endpoint is missing. -/
theorem addLink_missing_id_amended (nodes : List NodeData) (a b : String)
    (links : List LinkData) (_hmissing : ∀ n ∈ nodes, n.id ≠ b) (hne : a ≠ b)
    (hnew : ¬ HasLink links a b) :
    addLinkBetweenNodes a b links = links ++ [⟨a, b⟩] :=
  addLink_new hne hnew

/-- Witness for the amended C4 at a concrete input. -/
theorem addLink_missing_id_amended_witness :
    (∀ n ∈ cexOnlyUser, n.id ≠ "ghost") ∧ ("user" : String) ≠ "ghost" ∧
    ¬ HasLink [] "user" "ghost" ∧
    addLinkBetweenNodes "user" "ghost" [] = [⟨"user", "ghost"⟩] := by
  refine ⟨by decide, by decide, ?_, ?_⟩
  · rintro (h | h) <;> simp at h
  · exact addLink_missing_id_amended cexOnlyUser "user" "ghost" [] (by decide)
      (by decide) (by rintro (h | h) <;> simp at h)

/-! ## C9 — group membership is idempotent -/

/-- One mapped step of `addNodeToGroup` is pointwise idempotent. -/
theorem addNodeToGroup_step_idem (groupId nodeId : String) (g : BubbleGroup) :
    (fun g : BubbleGroup =>
        if g.id = groupId ∧ ¬ g.memberNodeIds.contains nodeId then
          { g with memberNodeIds := g.memberNodeIds ++ [nodeId] }
        else g)
      ((fun g : BubbleGroup =>
        if g.id = groupId ∧ ¬ g.memberNodeIds.contains nodeId then
          { g with memberNodeIds := g.memberNodeIds ++ [nodeId] }
        else g) g) =
    (fun g : BubbleGroup =>
        if g.id = groupId ∧ ¬ g.memberNodeIds.contains nodeId then
          { g with memberNodeIds := g.memberNodeIds ++ [nodeId] }
        else g) g := by
  by_cases h : g.id = groupId ∧ ¬ g.memberNodeIds.contains nodeId
  · simp only [if_pos h]
    have : ((g.memberNodeIds ++ [nodeId]).contains nodeId) = true := by
      simp [List.elem_iff]
    simp [this]
  · simp only [if_neg h, if_neg h]

/-- C9: adding a node already in the group leaves the group list unchanged;
`addNodeToGroup` twice equals `addNodeToGroup` once; and every group whose
id differs from the target is unchanged at its position. -/
theorem addNodeToGroup_idempotent (groupId nodeId : String)
    (groups : List BubbleGroup) :
    ((∀ g ∈ groups, g.id = groupId → nodeId ∈ g.memberNodeIds) →
      addNodeToGroup groupId nodeId groups = groups) ∧
    addNodeToGroup groupId nodeId (addNodeToGroup groupId nodeId groups) =
      addNodeToGroup groupId nodeId groups ∧
    ∀ (i : Nat) (h1 : i < (addNodeToGroup groupId nodeId groups).length)
      (h2 : i < groups.length),
      (groups.get ⟨i, h2⟩).id ≠ groupId →
      (addNodeToGroup groupId nodeId groups).get ⟨i, h1⟩ = groups.get ⟨i, h2⟩ := by
  refine ⟨?_, ?_, ?_⟩
  · intro hmem
    unfold addNodeToGroup
    conv_rhs => rw [← List.map_id groups]
    refine List.map_congr_left fun g hg => ?_
    have hc : ¬ (g.id = groupId ∧ ¬ g.memberNodeIds.contains nodeId) := by
      by_cases h : g.id = groupId
      · rintro ⟨-, hcon⟩
        exact hcon (List.elem_iff.mpr (hmem g hg h))
      · rintro ⟨h2, -⟩
        exact h h2
    rw [if_neg hc]
    rfl
  · unfold addNodeToGroup
    rw [List.map_map]
    exact List.map_congr_left fun g _ => addNodeToGroup_step_idem groupId nodeId g
  · intro i h1 h2 hne
    show (addNodeToGroup groupId nodeId groups)[i] = groups[i]
    unfold addNodeToGroup
    simp only [List.getElem_map]
    rw [if_neg]
    rintro ⟨h, -⟩
    exact hne h

/-- Witness for C9 at concrete inputs: re-adding an existing member is a
no-op, and groups with other ids are untouched. -/
theorem addNodeToGroup_idempotent_witness :
    ((∀ g ∈ wGroups, g.id = "group-0" → "user" ∈ g.memberNodeIds) ∧
      addNodeToGroup "group-0" "user" wGroups = wGroups) ∧
    ((wGroups.get ⟨1, by decide⟩).id ≠ "group-0" ∧
      (addNodeToGroup "group-0" "conn-0" wGroups).get
          ⟨1, by simp [addNodeToGroup, wGroups]⟩ =
        wGroups.get ⟨1, by decide⟩) := by
  refine ⟨⟨by decide, ?_⟩, ⟨by decide, ?_⟩⟩
  · exact (addNodeToGroup_idempotent "group-0" "user" wGroups).1 (by decide)
  · exact (addNodeToGroup_idempotent "group-0" "conn-0" wGroups).2.2 1 _ _
      (by decide)

/-! ## C2 — settle flush exactly once per simulation run -/

/-- Once the flag is set, no further tick flushes. -/
theorem flushCountAux_true (alphas : List ℚ) : flushCountAux true alphas = 0 := by
  induction alphas with
  | nil => rfl
  | cons a rest ih => by_cases h : a < 1 / 10 <;> simp [flushCountAux, h, ih]

/-- C2: over any single simulation run (flag reset to `false` at start), the
position flush executes at most once, and exactly once as soon as any tick
observes alpha below `0.1` — however many further sub-threshold ticks follow.
Applied to every prefix of the run, the equation also places the single
flush at the first sub-threshold tick. -/
theorem settle_flush_exactly_once (alphas : List ℚ) :
    flushCount alphas = (if ∃ a ∈ alphas, a < 1 / 10 then 1 else 0) ∧
    flushCount alphas ≤ 1 := by
  have stepF : ∀ (a : ℚ) (rest : List ℚ), flushCountAux false (a :: rest) =
      if a < 1 / 10 then 1 + flushCountAux true rest
      else flushCountAux false rest := fun _ _ => rfl
  have main : ∀ l : List ℚ,
      flushCountAux false l = if ∃ a ∈ l, a < 1 / 10 then 1 else 0 := by
    intro l
    induction l with
    | nil => simp [flushCountAux]
    | cons a rest ih =>
      by_cases h : a < 1 / 10
      · rw [if_pos ⟨a, List.mem_cons_self a rest, h⟩, stepF, if_pos h,
          flushCountAux_true]
      · rw [stepF, if_neg h, ih]
        by_cases hE : ∃ x ∈ rest, x < 1 / 10
        · obtain ⟨x, hx, hlt⟩ := hE
          rw [if_pos ⟨x, hx, hlt⟩, if_pos ⟨x, List.mem_cons_of_mem a hx, hlt⟩]
        · have hcons : ¬ ∃ x ∈ a :: rest, x < 1 / 10 := by
            rintro ⟨x, hx, hlt⟩
            rcases List.mem_cons.mp hx with rfl | hx2
            · exact h hlt
            · exact hE ⟨x, hx2, hlt⟩
          rw [if_neg hE, if_neg hcons]
  refine ⟨main alphas, ?_⟩
  rw [show flushCount alphas = _ from main alphas]
  split <;> omega

/-! ## C6 — migration of obsolete group-typed nodes -/

/-- C6: loading an accepted record that contains obsolete group-typed nodes
yields exactly the non-group-typed stored nodes, exactly the stored links
both of whose endpoints avoid every group-node id, and the record's explicit
group list (empty when the field is absent). -/
theorem load_migration (saved : SavedBubble) (ns : List SavedNode)
    (ls : List LinkData) (hn : saved.nodes = some ns)
    (hl : saved.links = some ls) (hname : nameFalsy saved.name = false)
    (hne : ns ≠ []) (_hgroup : ∃ n ∈ ns, n.type = SType.group) :
    ∃ lb, loadBubbleFromStorage (Store.value saved) = some lb ∧
      lb.nodes.map NodeData.toSavedNode =
        (ns.filter fun n => !(n.type == SType.group)) ∧
      (∀ l, l ∈ lb.links ↔ l ∈ ls ∧ ∀ n ∈ ns, n.type = SType.group →
        l.source ≠ n.id ∧ l.target ≠ n.id) ∧
      lb.links = (ls.filter fun l => decide (∀ n ∈ ns, n.type = SType.group →
        l.source ≠ n.id ∧ l.target ≠ n.id)) ∧
      (∀ gs, saved.groups = some gs → lb.groups = gs) ∧
      (saved.groups = none → lb.groups = []) := by
  refine ⟨_, load_value_eq saved ns ls hn hl hname hne,
    filterMap_toNodeData_map_toSavedNode ns, ?_, ?_, ?_, ?_⟩
  · intro l
    rw [List.mem_filter]
    exact and_congr_right fun _ => linkKeep_iff ns l
  · refine List.filter_congr fun l _ => bool_eq_of_iff ?_
    rw [linkKeep_iff, decide_eq_true_eq]
  · intro gs hgs
    show saved.groups.getD [] = gs
    rw [hgs]
    rfl
  · intro hnone
    show saved.groups.getD [] = []
    rw [hnone]
    rfl

/-- Witness for C6 on a concrete legacy record: the group-typed node and its
two incident links are dropped, the explicit group list is kept. -/
theorem load_migration_witness :
    (∃ n ∈ wLegacyNodes, n.type = SType.group) ∧
    ∃ lb, loadBubbleFromStorage (Store.value wLegacyRecord) = some lb ∧
      lb.nodes.map NodeData.toSavedNode =
        (wLegacyNodes.filter fun n => !(n.type == SType.group)) ∧
      (∀ l, l ∈ lb.links ↔ l ∈ wLegacyLinks ∧ ∀ n ∈ wLegacyNodes,
        n.type = SType.group → l.source ≠ n.id ∧ l.target ≠ n.id) ∧
      lb.links = (wLegacyLinks.filter fun l => decide (∀ n ∈ wLegacyNodes,
        n.type = SType.group → l.source ≠ n.id ∧ l.target ≠ n.id)) ∧
      (∀ gs, wLegacyRecord.groups = some gs → lb.groups = gs) ∧
      (wLegacyRecord.groups = none → lb.groups = []) :=
  ⟨by decide,
   load_migration wLegacyRecord wLegacyNodes wLegacyLinks rfl rfl (by decide)
     (by decide) (by decide)⟩

/-! ## C7 — load validation -/

/-- C7, counterexample: a parsed record with a non-empty name and a
non-empty node list but no `links` array is rejected (`null`), although the
claim's acceptance condition — parses, non-empty name, non-empty nodes —
holds for it. -/
theorem load_validation_counterexample :
    loadBubbleFromStorage (Store.value cexNoLinksRecord) = none ∧
    cexNoLinksRecord.name = some "Ava" ∧ ("Ava" : String) ≠ "" ∧
    ∃ ns, cexNoLinksRecord.nodes = some ns ∧ ns ≠ [] :=
  ⟨rfl, rfl, by decide, ⟨_, rfl, by decide⟩⟩

/-- C7, amended: `loadBubbleFromStorage` returns a bubble iff the stored
value parses, its `name` is truthy (present and non-empty), its `nodes`
field is a non-empty array, and additionally its `links` field is an array;
in every other case — absent key, unparsable JSON, falsy name, missing or
empty nodes array, missing links array — it returns `none` (and, being
total, never propagates a failure). -/
theorem load_accepts_iff (store : Store) :
    (∃ lb, loadBubbleFromStorage store = some lb) ↔
    ∃ saved ns ls, store = Store.value saved ∧ saved.nodes = some ns ∧
      saved.links = some ls ∧ nameFalsy saved.name = false ∧ ns ≠ [] := by
  constructor
  · rintro ⟨lb, hlb⟩
    cases store with
    | empty => simp [loadBubbleFromStorage] at hlb
    | malformed => simp [loadBubbleFromStorage] at hlb
    | value saved =>
      cases hn : saved.nodes with
      | none => simp [loadBubbleFromStorage, hn] at hlb
      | some ns =>
        cases hl : saved.links with
        | none => simp [loadBubbleFromStorage, hn, hl] at hlb
        | some ls =>
          simp only [loadBubbleFromStorage, hn, hl] at hlb
          by_cases hc : nameFalsy saved.name = true ∨ ns.length = 0
          · rw [if_pos hc] at hlb
            exact absurd hlb (by simp)
          · rw [not_or] at hc
            exact ⟨saved, ns, ls, rfl, hn, hl, Bool.eq_false_iff.mpr hc.1,
              fun h => hc.2 (h ▸ rfl)⟩
  · rintro ⟨saved, ns, ls, rfl, hn, hl, hname, hne⟩
    exact ⟨_, load_value_eq saved ns ls hn hl hname hne⟩

/-! ## C10 — save/load round-trip -/

/-- C10: for an already-trimmed non-empty name and a non-empty node list
(live nodes cannot be group-typed, so the "no group nodes" premise is
inherent in the model), saving and then loading recovers exactly the same
name, nodes, links and groups — including the case of an empty group list,
whose field is omitted on save and restored as `[]` on load. -/
theorem save_load_roundtrip (name : String) (nodes : List NodeData)
    (links : List LinkData) (groups : List BubbleGroup)
    (htrim : jsTrim name = name) (hname : name ≠ "") (hnodes : nodes ≠ []) :
    ∃ lb,
      loadBubbleFromStorage (saveBubbleToStorage name nodes links groups) =
        some lb ∧
      lb.name = name ∧ lb.nodes = nodes ∧ lb.links = links ∧
      lb.groups = groups := by
  have hmapne : nodes.map NodeData.toSavedNode ≠ [] := fun h =>
    hnodes (List.map_eq_nil_iff.mp h)
  have hfalsy : nameFalsy (some (jsTrim name)) = false := by
    simp [nameFalsy, htrim, hname]
  refine ⟨_, load_value_eq _ (nodes.map NodeData.toSavedNode) links rfl rfl
    hfalsy hmapne, ?_, filterMap_map_toSavedNode nodes, ?_, ?_⟩
  · exact htrim
  · rw [groupNodeIdsOf_map_toSavedNode nodes]
    rw [show (links.filter fun l =>
        !(([] : List String).contains l.source) &&
          !(([] : List String).contains l.target)) =
        links.filter fun _ => true from List.filter_congr fun l _ => rfl]
    exact List.filter_true links
  · show (if groups.length > 0 then some groups else none).getD [] = groups
    by_cases h : groups.length > 0
    · rw [if_pos h]
      rfl
    · have : groups = [] := List.length_eq_zero.mp (by omega)
      rw [if_neg h, this]
      rfl

/-- Witness for C10 at concrete inputs, once with a non-empty and once with
an empty group list. -/
theorem save_load_roundtrip_witness :
    (jsTrim "Ava" = "Ava" ∧ ("Ava" : String) ≠ "" ∧ wRoundNodes ≠ [] ∧
      ∃ lb, loadBubbleFromStorage
          (saveBubbleToStorage "Ava" wRoundNodes wRoundLinks wRoundGroups) =
          some lb ∧
        lb.name = "Ava" ∧ lb.nodes = wRoundNodes ∧ lb.links = wRoundLinks ∧
        lb.groups = wRoundGroups) ∧
    ∃ lb, loadBubbleFromStorage
        (saveBubbleToStorage "Ava" wRoundNodes wRoundLinks []) = some lb ∧
      lb.name = "Ava" ∧ lb.nodes = wRoundNodes ∧ lb.links = wRoundLinks ∧
      lb.groups = [] :=
  ⟨⟨by decide, by decide, by decide,
    save_load_roundtrip "Ava" wRoundNodes wRoundLinks wRoundGroups (by decide)
      (by decide) (by decide)⟩,
   save_load_roundtrip "Ava" wRoundNodes wRoundLinks [] (by decide)
     (by decide) (by decide)⟩

/-! ## C1 — structural identity key -/

theorem charListLe_total : ∀ as bs : List Char,
    charListLe as bs = true ∨ charListLe bs as = true
  | [], _ => Or.inl rfl
  | _ :: _, [] => Or.inr rfl
  | a :: as, b :: bs => by
    rcases lt_trichotomy a b with h | h | h
    · left
      simp [charListLe, h]
    · subst h
      rcases charListLe_total as bs with ih | ih
      · left
        simp [charListLe, lt_irrefl, ih]
      · right
        simp [charListLe, lt_irrefl, ih]
    · right
      simp [charListLe, h]

theorem charListLe_trans : ∀ as bs cs : List Char, charListLe as bs = true →
    charListLe bs cs = true → charListLe as cs = true
  | [], _, _, _, _ => rfl
  | _ :: _, [], _, h1, _ => by simp [charListLe] at h1
  | _ :: _, _ :: _, [], _, h2 => by simp [charListLe] at h2
  | a :: as, b :: bs, c :: cs, h1, h2 => by
    rcases lt_trichotomy a b with hab | hab | hab
    · rcases lt_trichotomy b c with hbc | hbc | hbc
      · simp [charListLe, lt_trans hab hbc]
      · subst hbc
        simp [charListLe, hab]
      · simp [charListLe, lt_asymm hbc, hbc] at h2
    · subst hab
      simp only [charListLe, lt_irrefl, if_false] at h1
      rcases lt_trichotomy a c with hac | hac | hac
      · simp [charListLe, hac]
      · subst hac
        simp only [charListLe, lt_irrefl, if_false] at h2 ⊢
        exact charListLe_trans as bs cs h1 h2
      · simp [charListLe, lt_asymm hac, hac] at h2
    · simp [charListLe, lt_asymm hab, hab] at h1

theorem charListLe_antisymm : ∀ as bs : List Char, charListLe as bs = true →
    charListLe bs as = true → as = bs
  | [], [], _, _ => rfl
  | [], _ :: _, _, h2 => by simp [charListLe] at h2
  | _ :: _, [], h1, _ => by simp [charListLe] at h1
  | a :: as, b :: bs, h1, h2 => by
    rcases lt_trichotomy a b with h | h | h
    · simp [charListLe, lt_asymm h, h] at h2
    · subst h
      simp only [charListLe, lt_irrefl, if_false] at h1 h2
      rw [charListLe_antisymm as bs h1 h2]
    · simp [charListLe, lt_asymm h, h] at h1

instance : IsTotal String fun a b => strLeB a b = true :=
  ⟨fun a b => charListLe_total a.data b.data⟩

instance : IsTrans String fun a b => strLeB a b = true :=
  ⟨fun a b c => charListLe_trans a.data b.data c.data⟩

instance : IsAntisymm String fun a b => strLeB a b = true :=
  ⟨fun a b h1 h2 => by
    have h := charListLe_antisymm a.data b.data h1 h2
    cases a
    cases b
    exact congrArg String.mk h⟩

/-- Two lists of strings with the same multiset of elements sort to the same
list: the key's sorting step makes the key order-independent. -/
theorem sortStrings_eq_of_perm {l1 l2 : List String} (h : l1.Perm l2) :
    sortStrings l1 = sortStrings l2 :=
  List.eq_of_perm_of_sorted
    (((List.perm_insertionSort _ l1).trans h).trans
      (List.perm_insertionSort _ l2).symm)
    (List.sorted_insertionSort _ l1) (List.sorted_insertionSort _ l2)

/-- C1, counterexample: two model states with the same node list, the same
(empty) group list, and the same set of unordered link pairs — one stores
the link as `user→conn-0`, the other as `conn-0→user` — receive different
composite keys: the key string `` `${source}-${target}` `` keeps each
stored link's orientation. -/
theorem graphStructure_counterexample :
    (∀ x y : String, HasLink cexLinksFwd x y ↔ HasLink cexLinksRev x y) ∧
    graphStructure cexNodes cexLinksFwd [] ≠
      graphStructure cexNodes cexLinksRev [] := by
  constructor
  · intro x y
    simp only [HasLink, cexLinksFwd, cexLinksRev, List.mem_singleton,
      LinkData.mk.injEq]
    tauto
  · decide

/-- C1, amended: the composite key is order-independent with respect to the
three lists — equal multisets of node ids, of **ordered** `(source, target)`
pairs, and of group ids give equal keys — and is unchanged by mutations that
only rewrite node fields other than `id` (positions, names, radii) or group
fields other than `id` (name, membership).  It is not invariant under
flipping a link's orientation. -/
theorem graphStructure_order_independent :
    (∀ (nodes1 nodes2 : List NodeData) (links1 links2 : List LinkData)
      (groups1 groups2 : List BubbleGroup),
      (nodes1.map NodeData.id).Perm (nodes2.map NodeData.id) →
      (links1.map fun l => (l.source, l.target)).Perm
        (links2.map fun l => (l.source, l.target)) →
      (groups1.map BubbleGroup.id).Perm (groups2.map BubbleGroup.id) →
      graphStructure nodes1 links1 groups1 =
        graphStructure nodes2 links2 groups2) ∧
    (∀ (nodes : List NodeData) (links : List LinkData)
      (groups : List BubbleGroup) (f : NodeData → NodeData),
      (∀ n, (f n).id = n.id) →
      graphStructure (nodes.map f) links groups =
        graphStructure nodes links groups) ∧
    (∀ (nodes : List NodeData) (links : List LinkData)
      (groups : List BubbleGroup) (g : BubbleGroup → BubbleGroup),
      (∀ x, (g x).id = x.id) →
      graphStructure nodes links (groups.map g) =
        graphStructure nodes links groups) := by
  refine ⟨?_, ?_, ?_⟩
  · intro nodes1 nodes2 links1 links2 groups1 groups2 hn hl hg
    have hlen_n : nodes1.length = nodes2.length := by
      have := hn.length_eq
      simpa using this
    have hlen_l : links1.length = links2.length := by
      have := hl.length_eq
      simpa using this
    have hlen_g : groups1.length = groups2.length := by
      have := hg.length_eq
      simpa using this
    have hl2 : (links1.map linkPairString).Perm (links2.map linkPairString) := by
      have := hl.map fun p => p.1 ++ "-" ++ p.2
      simpa [List.map_map, Function.comp, linkPairString] using this
    show GraphStructure.mk _ _ _ = GraphStructure.mk _ _ _
    rw [nodeIdsKey, nodeIdsKey, linksKey, linksKey, groupsKey, groupsKey,
      hlen_n, hlen_l, hlen_g, sortStrings_eq_of_perm hn,
      sortStrings_eq_of_perm hl2, sortStrings_eq_of_perm hg]
  · intro nodes links groups f hf
    show GraphStructure.mk _ _ _ = GraphStructure.mk _ _ _
    rw [nodeIdsKey, nodeIdsKey, List.length_map]
    rw [show (nodes.map f).map NodeData.id = nodes.map NodeData.id by
      rw [List.map_map]
      exact List.map_congr_left fun n _ => hf n]
  · intro nodes links groups g hg
    show GraphStructure.mk _ _ _ = GraphStructure.mk _ _ _
    rw [groupsKey, groupsKey, List.length_map]
    rw [show (groups.map g).map BubbleGroup.id = groups.map BubbleGroup.id by
      rw [List.map_map]
      exact List.map_congr_left fun x _ => hg x]

/-- Witness for the amended C1: list order does not matter, and a
position-only node mutation plus a name/membership-only group mutation keep
the key. -/
theorem graphStructure_order_independent_witness :
    ((cexNodes.map NodeData.id).Perm (wShuffledNodes.map NodeData.id) ∧
      graphStructure cexNodes cexLinksFwd [] =
        graphStructure wShuffledNodes cexLinksFwd []) ∧
    ((∀ n, (posUpdate n).id = n.id) ∧
      graphStructure (cexNodes.map posUpdate) cexLinksFwd [] =
        graphStructure cexNodes cexLinksFwd []) ∧
    ((∀ x, (groupRename x).id = x.id) ∧
      graphStructure cexNodes cexLinksFwd (wGroups.map groupRename) =
        graphStructure cexNodes cexLinksFwd wGroups) := by
  refine ⟨⟨by decide, ?_⟩, ⟨fun n => rfl, ?_⟩, ⟨fun x => rfl, ?_⟩⟩
  · exact graphStructure_order_independent.1 cexNodes wShuffledNodes
      cexLinksFwd cexLinksFwd [] [] (by decide) (List.Perm.refl _)
      (List.Perm.refl _)
  · exact graphStructure_order_independent.2.1 cexNodes cexLinksFwd []
      posUpdate fun n => rfl
  · exact graphStructure_order_independent.2.2 cexNodes cexLinksFwd wGroups
      groupRename fun x => rfl

/-! ## C8 — counter reseeding on load

First the round trip between the canonical decimal strings the id counters
emit (`natDecimal`) and the `parseInt` model that reads them back. -/

theorem digitChar_isDigit {d : Nat} (h : d < 10) :
    (Nat.digitChar d).isDigit = true := by
  interval_cases d <;> decide

theorem digitChar_not_whitespace {d : Nat} (h : d < 10) :
    (Nat.digitChar d).isWhitespace = false := by
  interval_cases d <;> decide

theorem digitChar_ne_minus {d : Nat} (h : d < 10) : Nat.digitChar d ≠ '-' := by
  interval_cases d <;> decide

theorem digitChar_ne_plus {d : Nat} (h : d < 10) : Nat.digitChar d ≠ '+' := by
  interval_cases d <;> decide

theorem digitVal_digitChar {d : Nat} (h : d < 10) :
    digitVal (Nat.digitChar d) = d := by
  interval_cases d <;> rfl

theorem natDecCharsAux_digits (fuel : Nat) : ∀ n, n ≤ fuel →
    ∀ c ∈ natDecCharsAux fuel n, ∃ d, d < 10 ∧ c = Nat.digitChar d := by
  induction fuel with
  | zero =>
    intro n hn c hc
    have hn0 : n = 0 := Nat.le_zero.mp hn
    subst hn0
    simp only [natDecCharsAux, List.mem_singleton] at hc
    exact ⟨0, by omega, hc⟩
  | succ fuel ih =>
    intro n hn c hc
    by_cases h : n < 10
    · simp only [natDecCharsAux, if_pos h, List.mem_singleton] at hc
      exact ⟨n, h, hc⟩
    · simp only [natDecCharsAux, if_neg h, List.mem_append,
        List.mem_singleton] at hc
      rcases hc with hc | hc
      · have hdle : n / 10 ≤ fuel := by
          have := Nat.div_lt_self (show 0 < n by omega) (show 1 < 10 by omega)
          omega
        exact ih (n / 10) hdle c hc
      · exact ⟨n % 10, Nat.mod_lt n (by omega), hc⟩

theorem decodeDigits_append_singleton (cs : List Char) (c : Char) :
    decodeDigits (cs ++ [c]) = 10 * decodeDigits cs + digitVal c := by
  simp [decodeDigits, List.foldl_append]

theorem decodeDigits_natDecCharsAux (fuel : Nat) : ∀ n, n ≤ fuel →
    decodeDigits (natDecCharsAux fuel n) = n := by
  induction fuel with
  | zero =>
    intro n hn
    have hn0 : n = 0 := Nat.le_zero.mp hn
    subst hn0
    rfl
  | succ fuel ih =>
    intro n hn
    by_cases h : n < 10
    · simp only [natDecCharsAux, if_pos h]
      show 10 * 0 + digitVal (Nat.digitChar n) = n
      rw [digitVal_digitChar h]
      omega
    · have hdle : n / 10 ≤ fuel := by
        have := Nat.div_lt_self (show 0 < n by omega) (show 1 < 10 by omega)
        omega
      simp only [natDecCharsAux, if_neg h]
      rw [decodeDigits_append_singleton, ih (n / 10) hdle,
        digitVal_digitChar (Nat.mod_lt n (by omega))]
      omega

theorem natDecCharsAux_ne_nil : ∀ fuel n, natDecCharsAux fuel n ≠ []
  | 0, n => by simp [natDecCharsAux]
  | fuel + 1, n => by
    by_cases h : n < 10 <;> simp [natDecCharsAux, h]

/-- `parseInt` on a non-empty all-digit character list returns its decimal
value. -/
theorem jsParseIntChars_digitChars (cs : List Char) (hne : cs ≠ [])
    (hds : ∀ c ∈ cs, ∃ d, d < 10 ∧ c = Nat.digitChar d) :
    jsParseIntChars cs = some (decodeDigits cs : Int) := by
  cases cs with
  | nil => exact absurd rfl hne
  | cons c rest =>
    obtain ⟨d, hd, rfl⟩ := hds _ (List.mem_cons_self _ _)
    have hdigits : ∀ x ∈ Nat.digitChar d :: rest, x.isDigit = true := by
      intro x hx
      obtain ⟨e, he, rfl⟩ := hds x hx
      exact digitChar_isDigit he
    have hdrop : (Nat.digitChar d :: rest).dropWhile Char.isWhitespace =
        Nat.digitChar d :: rest := by
      rw [List.dropWhile_cons, digitChar_not_whitespace hd]
      simp
    have htake : (Nat.digitChar d :: rest).takeWhile Char.isDigit =
        Nat.digitChar d :: rest :=
      List.takeWhile_eq_self_iff.mpr hdigits
    unfold jsParseIntChars
    rw [hdrop]
    dsimp only
    rw [if_neg (digitChar_ne_minus hd), if_neg (digitChar_ne_plus hd)]
    unfold parseDigitsPrefix
    rw [htake]
    rfl

/-- The round trip: the canonical decimal of `n` parses back to `n`. -/
theorem jsParseInt_natDecimal (n : Nat) :
    jsParseInt (natDecimal n) = some (n : Int) := by
  show jsParseIntChars (natDecChars n) = some (n : Int)
  rw [jsParseIntChars_digitChars (natDecChars n) (natDecCharsAux_ne_nil n n)
    (natDecCharsAux_digits n n le_rfl)]
  rw [show decodeDigits (natDecChars n) = n from
    decodeDigits_natDecCharsAux n n le_rfl]

theorem jsStartsWith_append (pre s : String) : jsStartsWith (pre ++ s) pre = true := by
  unfold jsStartsWith
  rw [String.data_append]
  exact List.isPrefixOf_iff_prefix.mpr (List.prefix_append _ _)

theorem jsDrop_append (pre s : String) : jsDrop (pre ++ s) pre.data.length = s := by
  unfold jsDrop
  rw [String.data_append, List.drop_left]

theorem jsDrop_conn (s : String) : jsDrop ("conn-" ++ s) 5 = s :=
  jsDrop_append "conn-" s

theorem jsDrop_group (s : String) : jsDrop ("group-" ++ s) 6 = s :=
  jsDrop_append "group-" s

/-! Fold bounds for the generic reseed step. -/

theorem idStep_mono (pre : String) (k : Nat) (a : Int) (id : String) :
    a ≤ idStep pre k a id := by
  unfold idStep
  split
  · split
    · exact le_max_left a _
    · exact le_max_left a 0
  · exact le_refl a

theorem foldl_idStep_init_le (pre : String) (k : Nat) :
    ∀ (l : List String) (a : Int), a ≤ l.foldl (idStep pre k) a
  | [], a => le_refl a
  | x :: xs, a =>
    le_trans (idStep_mono pre k a x) (foldl_idStep_init_le pre k xs _)

/-- The step on a canonical id `pre ++ natDecimal m` is `max acc m`. -/
theorem idStep_canonical (pre : String) (k : Nat)
    (hdrop : ∀ s, jsDrop (pre ++ s) k = s) (a : Int) (m : Nat) :
    idStep pre k a (pre ++ natDecimal m) = max a (m : Int) := by
  unfold idStep
  rw [jsStartsWith_append, hdrop, jsParseInt_natDecimal]
  simp

theorem le_foldl_idStep (pre : String) (k : Nat)
    (hdrop : ∀ s, jsDrop (pre ++ s) k = s) :
    ∀ (ids : List String) (a : Int) (m : Nat),
      (pre ++ natDecimal m) ∈ ids → (m : Int) ≤ ids.foldl (idStep pre k) a := by
  intro ids
  induction ids with
  | nil =>
    intro a m hm
    cases hm
  | cons x xs ih =>
    intro a m hm
    rcases List.mem_cons.mp hm with rfl | hmem
    · refine le_trans ?_ (foldl_idStep_init_le pre k xs _)
      rw [idStep_canonical pre k hdrop]
      exact le_max_right a _
    · exact ih _ m hmem

theorem foldl_idStep_skip (pre : String) (k : Nat) :
    ∀ (ids : List String), (∀ id ∈ ids, jsStartsWith id pre = false) →
      ∀ a, ids.foldl (idStep pre k) a = a
  | [], _, a => rfl
  | x :: xs, h, a => by
    have hx : idStep pre k a x = a := by
      unfold idStep
      rw [h x (List.mem_cons_self _ _)]
      rfl
    show List.foldl (idStep pre k) (idStep pre k a x) xs = a
    rw [hx]
    exact foldl_idStep_skip pre k xs (fun id hid => h id (List.mem_cons_of_mem x hid)) a

theorem foldl_idStep_le (pre : String) (k : Nat) (bound : Nat) :
    ∀ (ids : List String),
      (∀ id ∈ ids, jsStartsWith id pre = true →
        ∀ v : Int, jsParseInt (jsDrop id k) = some v → v ≤ bound) →
      ∀ a : Int, a ≤ (bound : Int) → ids.foldl (idStep pre k) a ≤ bound
  | [], _, a, ha => ha
  | x :: xs, h, a, ha => by
    have hx : idStep pre k a x ≤ (bound : Int) := by
      unfold idStep
      split
      · rename_i hpre
        split
        · rename_i v hv
          exact max_le ha (h x (List.mem_cons_self _ _) hpre v hv)
        · exact max_le ha (Int.ofNat_nonneg bound)
      · exact ha
    exact foldl_idStep_le pre k bound xs
      (fun id hid => h id (List.mem_cons_of_mem x hid)) _ hx

/-- `connStep` over saved nodes is `idStep "conn-" 5` over their ids. -/
theorem foldl_connStep_eq_idStep :
    ∀ (ns : List SavedNode) (a : Int),
      ns.foldl connStep a = (ns.map (·.id)).foldl (idStep "conn-" 5) a
  | [], _ => rfl
  | n :: rest, a => foldl_connStep_eq_idStep rest (connStep a n)

/-- `groupStep` over groups is `idStep "group-" 6` over their ids. -/
theorem foldl_groupStep_eq_idStep :
    ∀ (gs : List BubbleGroup) (a : Int),
      gs.foldl groupStep a = (gs.map (·.id)).foldl (idStep "group-" 6) a
  | [], _ => rfl
  | g :: rest, a => foldl_groupStep_eq_idStep rest (groupStep a g)

/-- C8: on an accepted record, the loaded bubble's `nextConnId` and
`nextGroupId` are reseeded past every numeric suffix found under the
respective prefix: (a)/(b) every id the counters can subsequently emit
(`conn-` / `group-` followed by the canonical decimal of any value at or
above the counter) differs from every loaded node / group id; (c)/(d) the
counters are `0` when no id bears the prefix; (e)/(f) when the prefixed ids
carry canonical numeric suffixes with maximum `kk`, the counter is exactly
`kk + 1`. -/
theorem load_reseeds_counters (saved : SavedBubble) (ns : List SavedNode)
    (ls : List LinkData) (hn : saved.nodes = some ns)
    (hl : saved.links = some ls) (hname : nameFalsy saved.name = false)
    (hne : ns ≠ []) :
    ∃ lb, loadBubbleFromStorage (Store.value saved) = some lb ∧
      (∀ kk : Nat, lb.nextConnId ≤ (kk : Int) →
        ∀ n ∈ ns, n.id ≠ "conn-" ++ natDecimal kk) ∧
      (∀ kk : Nat, lb.nextGroupId ≤ (kk : Int) →
        ∀ g ∈ lb.groups, g.id ≠ "group-" ++ natDecimal kk) ∧
      ((∀ n ∈ ns, jsStartsWith n.id "conn-" = false) → lb.nextConnId = 0) ∧
      ((∀ g ∈ lb.groups, jsStartsWith g.id "group-" = false) →
        lb.nextGroupId = 0) ∧
      (∀ kk : Nat, (∃ n ∈ ns, n.id = "conn-" ++ natDecimal kk) →
        (∀ n ∈ ns, jsStartsWith n.id "conn-" = true →
          ∃ m : Nat, m ≤ kk ∧ n.id = "conn-" ++ natDecimal m) →
        lb.nextConnId = (kk : Int) + 1) ∧
      (∀ kk : Nat, (∃ g ∈ lb.groups, g.id = "group-" ++ natDecimal kk) →
        (∀ g ∈ lb.groups, jsStartsWith g.id "group-" = true →
          ∃ m : Nat, m ≤ kk ∧ g.id = "group-" ++ natDecimal m) →
        lb.nextGroupId = (kk : Int) + 1) := by
  refine ⟨_, load_value_eq saved ns ls hn hl hname hne, ?_, ?_, ?_, ?_, ?_, ?_⟩
  · intro kk hkk n hn2 hid
    have hmem : ("conn-" ++ natDecimal kk) ∈ ns.map (·.id) :=
      hid ▸ List.mem_map_of_mem (·.id) hn2
    have hlow := le_foldl_idStep "conn-" 5 jsDrop_conn (ns.map (·.id)) (-1) kk hmem
    rw [← foldl_connStep_eq_idStep ns (-1)] at hlow
    simp only [nextConnIdOfList] at hkk
    omega
  · intro kk hkk g hg2 hid
    have hmem : ("group-" ++ natDecimal kk) ∈ (saved.groups.getD []).map (·.id) :=
      hid ▸ List.mem_map_of_mem (·.id) hg2
    have hlow := le_foldl_idStep "group-" 6 jsDrop_group _ (-1) kk hmem
    rw [← foldl_groupStep_eq_idStep _ (-1)] at hlow
    simp only [nextGroupIdOfList] at hkk
    omega
  · intro hnone
    show nextConnIdOfList ns = 0
    unfold nextConnIdOfList
    rw [foldl_connStep_eq_idStep,
      foldl_idStep_skip "conn-" 5 (ns.map (·.id))
        (by
          intro id hid
          obtain ⟨n, hn2, rfl⟩ := List.mem_map.mp hid
          exact hnone n hn2)]
    rfl
  · intro hnone
    show nextGroupIdOfList (saved.groups.getD []) = 0
    unfold nextGroupIdOfList
    rw [foldl_groupStep_eq_idStep,
      foldl_idStep_skip "group-" 6 ((saved.groups.getD []).map (·.id))
        (by
          intro id hid
          obtain ⟨g, hg2, rfl⟩ := List.mem_map.mp hid
          exact hnone g hg2)]
    rfl
  · rintro kk ⟨n, hn2, hid⟩ hwf
    have hmem : ("conn-" ++ natDecimal kk) ∈ ns.map (·.id) :=
      hid ▸ List.mem_map_of_mem (·.id) hn2
    have hlow := le_foldl_idStep "conn-" 5 jsDrop_conn (ns.map (·.id)) (-1) kk hmem
    have hhigh := foldl_idStep_le "conn-" 5 kk (ns.map (·.id))
      (by
        intro id hid hpre v hv
        obtain ⟨m2, hm2, rfl⟩ := List.mem_map.mp hid
        obtain ⟨m, hm, hidm⟩ := hwf m2 hm2 hpre
        rw [hidm, jsDrop_conn, jsParseInt_natDecimal] at hv
        cases hv
        exact Int.ofNat_le.mpr hm)
      (-1) (by omega)
    rw [← foldl_connStep_eq_idStep ns (-1)] at hlow hhigh
    show nextConnIdOfList ns = (kk : Int) + 1
    unfold nextConnIdOfList
    omega
  · rintro kk ⟨g, hg2, hid⟩ hwf
    have hmem : ("group-" ++ natDecimal kk) ∈ (saved.groups.getD []).map (·.id) :=
      hid ▸ List.mem_map_of_mem (·.id) hg2
    have hlow := le_foldl_idStep "group-" 6 jsDrop_group _ (-1) kk hmem
    have hhigh := foldl_idStep_le "group-" 6 kk ((saved.groups.getD []).map (·.id))
      (by
        intro id hid hpre v hv
        obtain ⟨g2, hg3, rfl⟩ := List.mem_map.mp hid
        obtain ⟨m, hm, hidm⟩ := hwf g2 hg3 hpre
        rw [hidm, jsDrop_group, jsParseInt_natDecimal] at hv
        cases hv
        exact Int.ofNat_le.mpr hm)
      (-1) (by omega)
    rw [← foldl_groupStep_eq_idStep _ (-1)] at hlow hhigh
    show nextGroupIdOfList (saved.groups.getD []) = (kk : Int) + 1
    unfold nextGroupIdOfList
    omega

/-- Witness for C8 on a concrete record with ids `conn-0`, `conn-7` and
`group-2`: the counters come back as 8 and 3, and the next emittable ids are
fresh. -/
theorem load_reseeds_counters_witness :
    ∃ lb, loadBubbleFromStorage (Store.value wReseedRecord) = some lb ∧
      lb.nextConnId = 8 ∧ lb.nextGroupId = 3 ∧
      (∀ n ∈ wReseedNodes, n.id ≠ "conn-" ++ natDecimal 8) ∧
      (∀ g ∈ lb.groups, g.id ≠ "group-" ++ natDecimal 3) := by
  obtain ⟨lb, hload, ha, hb, -, -, he, hf⟩ :=
    load_reseeds_counters wReseedRecord wReseedNodes wReseedLinks rfl rfl
      (by decide) (by decide)
  have hconn : lb.nextConnId = (7 : Int) + 1 := by
    refine he 7 ⟨wReseedNodes.get ⟨2, by decide⟩, by decide, by decide⟩ ?_
    intro n hn hpre
    simp only [wReseedNodes, List.mem_cons, List.not_mem_nil, or_false] at hn
    rcases hn with rfl | rfl | rfl
    · exact absurd hpre (by decide)
    · exact ⟨0, by omega, by decide⟩
    · exact ⟨7, le_refl 7, by decide⟩
  have hgroup : lb.nextGroupId = (2 : Int) + 1 := by
    have hgs : lb.groups = wReseedGroups := by
      have := hload
      rw [load_value_eq wReseedRecord wReseedNodes wReseedLinks rfl rfl
        (by decide) (by decide)] at this
      cases this
      rfl
    refine hf 2 ⟨wReseedGroups.get ⟨0, by decide⟩, by rw [hgs]; decide, by decide⟩ ?_
    intro g hg hpre
    rw [hgs] at hg
    simp only [wReseedGroups, List.mem_cons, List.not_mem_nil, or_false] at hg
    subst hg
    exact ⟨2, le_refl 2, by decide⟩
  refine ⟨lb, hload, by omega, by omega, ?_, ?_⟩
  · intro n hn
    exact ha 8 (by omega) n hn
  · intro g hg
    exact hb 3 (by omega) g hg

/-! ## C5 — group hull shape by cardinality -/

theorem sqrt_quarter (s : ℝ) (hs : 0 ≤ s) :
    Real.sqrt (s / 4) = Real.sqrt s / 2 := by
  rw [Real.sqrt_div hs, show Real.sqrt 4 = 2 from by
    rw [show (4 : ℝ) = 2 ^ 2 by norm_num, Real.sqrt_sq (by norm_num : (0:ℝ) ≤ 2)]]

/-- A point is strictly closer to the midpoint of itself and another point
than half their distance plus 45. -/
theorem midpoint_sqrt_lt (x1 y1 x2 y2 : ℝ) :
    Real.sqrt ((x1 - (x1 + x2) / 2) ^ 2 + (y1 - (y1 + y2) / 2) ^ 2) <
      Real.sqrt ((x2 - x1) ^ 2 + (y2 - y1) ^ 2) / 2 + 45 := by
  have hs : (0:ℝ) ≤ (x2 - x1) ^ 2 + (y2 - y1) ^ 2 := by positivity
  have h4 : (x1 - (x1 + x2) / 2) ^ 2 + (y1 - (y1 + y2) / 2) ^ 2 =
      ((x2 - x1) ^ 2 + (y2 - y1) ^ 2) / 4 := by ring
  rw [h4, sqrt_quarter _ hs]
  linarith

/-- C5: per-tick hull shape by member cardinality, with `d3.polygonHull`
and `Math.hypot` constrained by their documented contracts: 0 positioned
members → hidden; 1 → two arcs (a circle) of radius 50 on the member;
2 → two arcs around the members' midpoint with radius half the distance
plus 45, both members strictly inside that radius; ≥3 → the convex-hull
polygon: its vertices are member positions (no padding) and it contains
every member position. -/
theorem hull_shape_by_cardinality
    (polygonHull : List (Pt ℝ) → Option (List (Pt ℝ))) (hypot : ℝ → ℝ → ℝ)
    (group : BubbleGroup) (nodesData : List (SimNode ℝ))
    (hhypot : ∀ a b : ℝ, hypot a b = Real.sqrt (a ^ 2 + b ^ 2))
    (hullSome : ∀ pts, 3 ≤ pts.length → (polygonHull pts).isSome = true)
    (hullSpec : ∀ pts h, polygonHull pts = some h → IsConvexHullPolyOf h pts) :
    (collectGroupPoints group nodesData = [] →
      tickGroupPath polygonHull hypot group nodesData = GroupPath.hidden) ∧
    (∀ p : Pt ℝ, collectGroupPoints group nodesData = [p] →
      tickGroupPath polygonHull hypot group nodesData =
        GroupPath.arcs p.1 p.2 50) ∧
    (∀ p q : Pt ℝ, collectGroupPoints group nodesData = [p, q] →
      tickGroupPath polygonHull hypot group nodesData =
        GroupPath.arcs ((p.1 + q.1) / 2) ((p.2 + q.2) / 2)
          (Real.sqrt ((q.1 - p.1) ^ 2 + (q.2 - p.2) ^ 2) / 2 + 45) ∧
      Real.sqrt ((p.1 - (p.1 + q.1) / 2) ^ 2 + (p.2 - (p.2 + q.2) / 2) ^ 2) <
        Real.sqrt ((q.1 - p.1) ^ 2 + (q.2 - p.2) ^ 2) / 2 + 45 ∧
      Real.sqrt ((q.1 - (p.1 + q.1) / 2) ^ 2 + (q.2 - (p.2 + q.2) / 2) ^ 2) <
        Real.sqrt ((q.1 - p.1) ^ 2 + (q.2 - p.2) ^ 2) / 2 + 45) ∧
    (3 ≤ (collectGroupPoints group nodesData).length →
      ∃ h, tickGroupPath polygonHull hypot group nodesData =
          GroupPath.poly h ∧
        IsConvexHullPolyOf h (collectGroupPoints group nodesData)) := by
  refine ⟨?_, ?_, ?_, ?_⟩
  · intro hpts
    unfold tickGroupPath
    rw [hpts]
    rfl
  · intro p hpts
    unfold tickGroupPath
    rw [hpts]
    rfl
  · intro p q hpts
    refine ⟨?_, ?_, ?_⟩
    · unfold tickGroupPath
      rw [hpts]
      show GroupPath.arcs ((p.1 + q.1) / 2) ((p.2 + q.2) / 2)
        (hypot (q.1 - p.1) (q.2 - p.2) / 2 + 45) = _
      rw [hhypot]
    · exact midpoint_sqrt_lt p.1 p.2 q.1 q.2
    · have hq := midpoint_sqrt_lt q.1 q.2 p.1 p.2
      have e1 : (q.1 - (q.1 + p.1) / 2) ^ 2 + (q.2 - (q.2 + p.2) / 2) ^ 2 =
          (q.1 - (p.1 + q.1) / 2) ^ 2 + (q.2 - (p.2 + q.2) / 2) ^ 2 := by ring
      have e2 : (p.1 - q.1) ^ 2 + (p.2 - q.2) ^ 2 =
          (q.1 - p.1) ^ 2 + (q.2 - p.2) ^ 2 := by ring
      rw [e1, e2] at hq
      exact hq
  · intro h3
    have hsome := hullSome _ h3
    unfold tickGroupPath groupPathOfPoints
    rw [if_pos h3]
    cases hhull : polygonHull (collectGroupPoints group nodesData) with
    | none => rw [hhull] at hsome; cases hsome
    | some h => exact ⟨h, rfl, hullSpec _ h hhull⟩

/-- Witness for C5: a concrete three-member group with live positions and a
hull function satisfying the contract. -/
theorem hull_shape_by_cardinality_witness :
    (∀ a b : ℝ, Real.sqrt (a ^ 2 + b ^ 2) = Real.sqrt (a ^ 2 + b ^ 2)) ∧
    3 ≤ (collectGroupPoints wHullGroup wSimNodes).length ∧
    ∃ h, tickGroupPath idHullFn (fun a b => Real.sqrt (a ^ 2 + b ^ 2))
        wHullGroup wSimNodes = GroupPath.poly h ∧
      IsConvexHullPolyOf h (collectGroupPoints wHullGroup wSimNodes) := by
  have hpts : collectGroupPoints wHullGroup wSimNodes =
      [((0:ℝ), (0:ℝ)), (1, 0), (0, 1)] := rfl
  refine ⟨fun a b => rfl, by rw [hpts]; decide, ?_⟩
  exact (hull_shape_by_cardinality idHullFn
    (fun a b => Real.sqrt (a ^ 2 + b ^ 2)) wHullGroup wSimNodes
    (fun a b => rfl) (fun pts h3 => rfl)
    (fun pts h heq => by
      cases heq
      exact ⟨fun v hv => hv, fun x hx => subset_convexHull ℝ _ hx⟩)).2.2.2
    (by rw [hpts]; decide)

end Bubble
